import Mathlib

/-!
# Verification of the tiny-agent core (src/tiny_agent.py)

Shallow embedding of the streaming message parser, the presentation state
machine, the per-turn request controller and the task loop of
`src/tiny_agent.py`, together with theorems settling the frozen claims
about the specification.

Conventions of the embedding:
* Python strings are Lean `String`s; the parser works on `List Char`
  (`String.data`) so that the regex scans become structural recursions.
* The Python `partial` attribute of the two block dataclasses is embedded
  as the Boolean field `pflag` (Lean reserves the word).
* The regular expression
  `<(read_file|write_to_file|execute_command|list_files|attempt_completion)>(.*?)</\1>`
  with `re.DOTALL` is embedded as a left-to-right scan: at each position the
  engine tries each tool name; a name matches when its opening tag starts
  here and its closing tag occurs later, the lazy `(.*?)` taking everything
  up to the FIRST closing occurrence.  `finditer` then resumes after the
  match.  The parameter pattern `<(\w+)>(.*?)</\1>` is embedded the same
  way, `\w+` being a maximal nonempty run of word characters.
* Effectful code (tool executor bodies, the operator prompt, the backend
  stream) is embedded by passing the effect's outcome explicitly: the tool
  dispatcher takes a `ToolEnv` of filesystem/process primitives returning
  `Except`, a turn takes the list of text deltas the backend would stream
  and the string the operator would type at the completion prompt.
-/

/-- Embeds `TextBlock` / `ToolUseBlock` (src/tiny_agent.py lines 30-43) as a
tagged variant.  `pflag` embeds the Python `partial` field; both dataclasses
default it to `False` and the parser never passes it explicitly. -/
inductive Block where
  | text (content : String) (pflag : Bool)
  | toolUse (name : String) (params : List (String × String)) (pflag : Bool)
deriving DecidableEq, Repr

/-- The `partial` field of a block. -/
def Block.pflag : Block → Bool
  | .text _ p => p
  | .toolUse _ _ p => p

/-- `isinstance(block, ToolUseBlock)`. -/
def Block.isToolUse : Block → Bool
  | .text _ _ => false
  | .toolUse _ _ _ => true

/-- The `name` attribute of a tool-use block (`""` for a text block, which
the Python code never reads). -/
def Block.name : Block → String
  | .text _ _ => ""
  | .toolUse n _ _ => n

/-- The `params` attribute of a tool-use block. -/
def Block.params : Block → List (String × String)
  | .text _ _ => []
  | .toolUse _ ps _ => ps

/-- `block.partial = False`, as done by the finalization loop of
`_make_request` (lines 307-308). -/
def Block.clearP : Block → Block
  | .text c _ => .text c false
  | .toolUse n ps _ => .toolUse n ps false

/-- Python dict assignment `params[k] = v`: replaces the value at an
existing key in place, otherwise appends (insertion order preserved,
last occurrence wins). -/
def dictInsert (l : List (String × String)) (k v : String) : List (String × String) :=
  match l with
  | [] => [(k, v)]
  | (k', v') :: rest => if k' = k then (k, v) :: rest else (k', v') :: dictInsert rest k v

/-- Python `params.get(k, dflt)`. -/
def dictGet (l : List (String × String)) (k dflt : String) : String :=
  match l.find? (fun p => p.1 = k) with
  | some p => p.2
  | none => dflt

/-- Python `str.strip()` (ASCII whitespace on the inputs that occur). -/
def trimChars (l : List Char) : List Char :=
  ((l.dropWhile Char.isWhitespace).reverse.dropWhile Char.isWhitespace).reverse

/-- A character matched by `\w`. -/
def isWordChar (c : Char) : Bool := c.isAlphanum || c = '_'

/-- The fixed alternation of the tool-tag regex (line 67), in source order. -/
def toolNames : List String :=
  ["read_file", "write_to_file", "execute_command", "list_files", "attempt_completion"]

/-- `<name>` as a character list. -/
def openTag (n : String) : List Char := '<' :: (n.data ++ ['>'])

/-- `</name>` as a character list. -/
def closeTag (n : String) : List Char := '<' :: '/' :: (n.data ++ ['>'])

/-- Split `s` at the first occurrence of `pat`: returns the part before the
occurrence and the part after it.  `none` when `pat` does not occur.  This is
the lazy `(.*?)pat` step of both regexes. -/
def splitFirst (pat : List Char) : List Char → Option (List Char × List Char)
  | [] => if pat = [] then some ([], []) else none
  | c :: rest =>
    if pat.isPrefixOf (c :: rest) then some ([], (c :: rest).drop pat.length)
    else
      match splitFirst pat rest with
      | some (pre, post) => some (c :: pre, post)
      | none => none

/-- Try each tool name of the alternation at the current position: a name
matches when its opening tag starts here and its closing tag occurs in the
remainder (the lazy group stopping at the first closing tag). -/
def tryToolsAt : List String → List Char → Option (String × List Char × List Char)
  | [], _ => none
  | n :: ns, s =>
    if (openTag n).isPrefixOf s then
      match splitFirst (closeTag n) (s.drop (openTag n).length) with
      | some (inner, after) => some (n, inner, after)
      | none => tryToolsAt ns s
    else tryToolsAt ns s

/-- Leftmost match of the tool-tag regex: returns the text before the match,
the tool name, the inner content, and the rest of the buffer after the
closing tag. -/
def findTool : List Char → Option (List Char × String × List Char × List Char)
  | [] => none
  | c :: rest =>
    match tryToolsAt toolNames (c :: rest) with
    | some (n, inner, after) => some ([], n, inner, after)
    | none =>
      match findTool rest with
      | some (before, n, inner, after) => some (c :: before, n, inner, after)
      | none => none

/-- Try the parameter pattern `<(\w+)>(.*?)</\1>` at the current position. -/
def tryParamAt (s : List Char) : Option (List Char × List Char × List Char) :=
  match s with
  | '<' :: rest =>
    let nm := rest.takeWhile isWordChar
    if nm = [] then none
    else
      match rest.drop nm.length with
      | '>' :: body =>
        match splitFirst ('<' :: '/' :: (nm ++ ['>'])) body with
        | some (inner, after) => some (nm, inner, after)
        | none => none
      | _ => none
  | _ => none

/-- Leftmost match of the parameter pattern. -/
def findParam : List Char → Option (List Char × List Char × List Char)
  | [] => none
  | c :: rest =>
    match tryParamAt (c :: rest) with
    | some r => some r
    | none => findParam rest

/-- The `for param_match in re.finditer(param_pattern, tool_content)` loop
(lines 81-84): each parameter value is trimmed, repeated keys overwrite.
Fuel bounds the number of matches; each match strictly shortens the buffer,
so `s.length` fuel is always enough. -/
def collectParams : Nat → List Char → List (String × String) → List (String × String)
  | 0, _, acc => acc
  | f + 1, s, acc =>
    match findParam s with
    | none => acc
    | some (nm, inner, after) =>
      collectParams f after (dictInsert acc (String.mk nm) (String.mk (trimChars inner)))

/-- Parameter parsing of one tool span: the Python code first strips the
tool's inner content, then scans it. -/
def parseParams (inner : List Char) : List (String × String) :=
  collectParams (trimChars inner).length (trimChars inner) []

/-- The `for match in re.finditer(tool_pattern, message)` loop: all
non-overlapping tool matches in order, plus the unmatched tail.  Fuel bounds
the number of matches; each match consumes its tags, so `s.length` is
always enough. -/
def collectTools : Nat → List Char → List (List Char × String × List Char) × List Char
  | 0, s => ([], s)
  | f + 1, s =>
    match findTool s with
    | none => ([], s)
    | some (before, n, inner, after) =>
      let r := collectTools f after
      ((before, n, inner) :: r.1, r.2)

/-- The tool matches of a buffer (the complete tool tags the regex finds). -/
def matchesOfChars (cs : List Char) : List (List Char × String × List Char) :=
  (collectTools cs.length cs).1

/-- The unmatched tail of a buffer after the last tool match. -/
def restOfChars (cs : List Char) : List Char :=
  (collectTools cs.length cs).2

/-- Blocks contributed by one tool match: the preceding text (stripped,
dropped when empty) followed by the tool-use block (lines 73-87). -/
def matchBlocks : List Char × String × List Char → List Block
  | (before, n, inner) =>
    (if trimChars before = [] then [] else [Block.text (String.mk (trimChars before)) false]) ++
    [Block.toolUse n (parseParams inner) false]

/-- Blocks of all matches, in order. -/
def blocksOfMatches : List (List Char × String × List Char) → List Block
  | [] => []
  | m :: ms => matchBlocks m ++ blocksOfMatches ms

/-- The trailing text after the last match (lines 89-92). -/
def trailBlocks (rest : List Char) : List Block :=
  if trimChars rest = [] then [] else [Block.text (String.mk (trimChars rest)) false]

/-- `MessageParser.parse_assistant_message` on the underlying characters:
blocks of the matches, the stripped trailing text, and the whole-message
fallback of lines 94-95. -/
def parseChars (cs : List Char) : List Block :=
  if blocksOfMatches (matchesOfChars cs) ++ trailBlocks (restOfChars cs) = []
      ∧ trimChars cs ≠ [] then
    [Block.text (String.mk (trimChars cs)) false]
  else blocksOfMatches (matchesOfChars cs) ++ trailBlocks (restOfChars cs)

/-- `MessageParser.parse_assistant_message` (src/tiny_agent.py lines 64-97). -/
def MessageParser.parse_assistant_message (message : String) : List Block :=
  parseChars message.data

/-- One `{role, content}` entry of the conversation history / request
message list. -/
structure Msg where
  role : String
  content : String
deriving DecidableEq, Repr

/-- The mutable state the presentation machine and the task loop read and
write: the per-turn fields of `TaskState` (lines 53-60) together with the
`Task` object's `conversation_history` and dynamically attached `next_task`
attribute. -/
structure TurnState where
  /-- `TaskState.is_streaming`. -/
  isStreaming : Bool
  /-- `TaskState.current_streaming_content_index`. -/
  idx : Nat
  /-- `TaskState.assistant_message_content`. -/
  content : List Block
  /-- `TaskState.user_message_content` (Pending Results): the entries are the
  rendered `"Tool {name} result:\n{result}"` texts. -/
  userMsgs : List String
  /-- `TaskState.user_message_content_ready`. -/
  ready : Bool
  /-- `TaskState.abort`. -/
  abort : Bool
  /-- `Task.next_task` (Next-Task Handoff); `none` embeds both "attribute
  absent" and "attribute set to None". -/
  nextTask : Option String
  /-- `Task.conversation_history`. -/
  history : List Msg
deriving DecidableEq, Repr

/-- State of a freshly constructed `Task` object. -/
def initialTask : TurnState :=
  { isStreaming := false, idx := 0, content := [], userMsgs := [], ready := false,
    abort := false, nextTask := none, history := [] }

/-- A block the `attempt_completion` branch of `_present_content`
(line 338) fires on: a non-partial tool-use block with the completion
name. -/
def isFinalCompletionB (b : Block) : Bool :=
  Block.isToolUse b && !Block.pflag b && (Block.name b == "attempt_completion")

/-- A block the tool-execution branch of `_present_content` (line 335)
fires on: a non-partial tool-use block. -/
def isFinalToolB (b : Block) : Bool :=
  Block.isToolUse b && !Block.pflag b

/-- The `{"type": "text", "text": ...}` entry appended to
`user_message_content` (lines 359-362), reduced to its text. -/
def resultEntry (n result : String) : String :=
  "Tool " ++ n ++ " result:\n" ++ result

/-- Python `str.strip()` on a `String` (via the character list, so the
kernel can evaluate it). -/
def pyStrip (s : String) : String := String.mk (trimChars s.data)

/-- Python `str.lower()` (ASCII case mapping on the inputs that occur). -/
def pyLower (s : String) : String := String.mk (s.data.map Char.toLower)

/-- Lines 342-351: the operator's reply at the `attempt_completion` prompt.
`raw` is the line `input()` returns; the code strips it, aborts on a quit
word, and otherwise stores a non-empty reply as the next task — every
branch sets `abort`. -/
def applyOperator (raw : String) (s : TurnState) : TurnState :=
  let nt := pyStrip raw
  if pyLower nt = "quit" ∨ pyLower nt = "exit" ∨ pyLower nt = "q" then
    { s with abort := true }
  else if nt ≠ "" then { s with nextTask := some nt, abort := true }
  else { s with abort := true }

/-- `content[current_streaming_content_index]` (line 333); the guard
`idx < len` always holds where it is read, so the default is never
returned. -/
def curBlock (s : TurnState) : Block :=
  s.content.getD s.idx (Block.text "" false)

/-- Lines 356-362: dispatch a finalized non-completion tool block and
append its rendered result to Pending Results; anything else leaves the
state unchanged. -/
def execState (exec : String → List (String × String) → String)
    (s : TurnState) (b : Block) : TurnState :=
  if isFinalToolB b then
    { s with userMsgs :=
        s.userMsgs ++ [resultEntry (Block.name b) (exec (Block.name b) (Block.params b))] }
  else s

/-- Lines 364-368: for a finalized block, set `ready` when it is the last
one, then advance the cursor. -/
def advState (s : TurnState) : TurnState :=
  { s with ready := (if s.idx = s.content.length - 1 then true else s.ready),
           idx := s.idx + 1 }

/-- `Task._present_content` (lines 327-371).  `exec` embeds
`ToolExecutor.execute_tool` (name and params to result string), `op` the
operator's reply should the completion prompt be reached.  The result pairs
the new state with the list of segment indices visited (presented or
executed) in order; the fuel bounds the recursion depth (the real recursion
advances `idx` every step, so `content.length + 1` is always enough). -/
def presentContent (exec : String → List (String × String) → String) (op : String) :
    Nat → TurnState → TurnState × List Nat
  | 0, s => (s, [])
  | f + 1, s =>
    if s.content.length ≤ s.idx then
      -- lines 328-331: nothing left; once streaming has ended, results are ready
      (if s.isStreaming then s else { s with ready := true }, [])
    else if isFinalCompletionB (curBlock s) then
      -- lines 338-354: completion side-channel; sets ready and returns
      -- without advancing the index
      ({ applyOperator op s with ready := true }, [s.idx])
    else if Block.pflag (curBlock s) then
      -- a partial block is not advanced past (line 364)
      (execState exec s (curBlock s), [])
    else if (advState (execState exec s (curBlock s))).idx <
        (advState (execState exec s (curBlock s))).content.length then
      -- lines 364-371: mark ready at the last block, advance, recurse
      (let r := presentContent exec op f (advState (execState exec s (curBlock s)))
       (r.1, s.idx :: r.2))
    else (advState (execState exec s (curBlock s)), [s.idx])

/-- Outcome of streaming one turn's deltas (the `async for chunk` loop of
lines 280-292). -/
structure StreamOut where
  state : TurnState
  log : List Nat
  msg : String
deriving Repr

/-- The streaming loop: for each non-empty text delta, extend the raw
buffer, re-parse it from scratch, re-run presentation, and stop early on
abort (lines 280-289).  Usage chunks only print and are not modelled. -/
def streamFold (exec : String → List (String × String) → String) (op : String) :
    List String → String → TurnState → StreamOut
  | [], acc, s => ⟨s, [], acc⟩
  | d :: ds, acc, s =>
    if d = "" then streamFold exec op ds acc s
    else
      let acc' := acc ++ d
      let s1 := { s with content := MessageParser.parse_assistant_message acc' }
      let r := presentContent exec op (s1.content.length + 1) s1
      if r.1.abort then ⟨r.1, r.2, acc'⟩
      else
        let rest := streamFold exec op ds acc' r.1
        ⟨rest.state, r.2 ++ rest.log, rest.msg⟩

/-- The backend events scripted for one turn: the text deltas the stream
would yield and the line the operator would type should the completion
prompt be reached. -/
structure TurnScript where
  deltas : List String
  operatorInput : String
deriving Repr

/-- Result of `Task._make_request`: the returned Boolean (`True` means the
turn ends the task loop), the state afterwards, the message list composed
for the backend request, and the presentation visit log of the turn. -/
structure ReqResult where
  didEnd : Bool
  state : TurnState
  messages : List Msg
  log : List Nat
deriving Repr

/-- The fixed continuation prompt of `_task_loop` (line 256). -/
def continuationPrompt : String := "Continue with the task or call attempt_completion."

/-- Lines 262-266 and 277: the per-turn reset of `_make_request` together
with entering streaming mode. -/
def resetState (s : TurnState) : TurnState :=
  { s with idx := 0, content := [], userMsgs := [], ready := false, isStreaming := true }

/-- Line 299 (the `finally`): streaming has ended. -/
def stopStream (s : TurnState) : TurnState := { s with isStreaming := false }

/-- Lines 307-308: clear every block's `partial` field. -/
def clearedContent (s : TurnState) : TurnState :=
  { s with content := s.content.map Block.clearP }

/-- Line 319: append the assistant message to the conversation history. -/
def recordAssistant (msg : String) (s : TurnState) : TurnState :=
  { s with history := s.history ++ [⟨"assistant", msg⟩] }

/-- Lines 269-271: the message list composed for the backend request. -/
def requestMessages (userContent : List String) (s : TurnState) : List Msg :=
  s.history ++ [⟨"user", String.intercalate "\n" (userContent.filter (fun t => t ≠ ""))⟩]

/-- `Task._make_request` (lines 258-325).  `userContent` is the list of the
texts of the `user_content` dicts.  The bounded `asyncio.sleep` wait of
lines 311-312 only polls `ready`/`abort`, which the single-threaded model
has already determined, so it adds nothing here. -/
def makeRequest (exec : String → List (String × String) → String) (script : TurnScript)
    (userContent : List String) (s0 : TurnState) : ReqResult :=
  if s0.abort then ⟨true, s0, [], []⟩
  else
    let messages := requestMessages userContent s0
    let st := streamFold exec script.operatorInput script.deltas "" (resetState s0)
    if (stopStream st.state).abort then ⟨true, stopStream st.state, messages, st.log⟩
    else
      -- lines 307-309: finalize all blocks and re-present
      let s5 := clearedContent (stopStream st.state)
      let r := presentContent exec script.operatorInput (s5.content.length + 1) s5
      let fullLog := st.log ++ r.2
      if r.1.abort then ⟨true, r.1, messages, fullLog⟩
      else if st.msg ≠ "" then
        -- lines 317-325: record the assistant message, then decide the
        -- return value from the presence of tool blocks
        let s7 := recordAssistant st.msg r.1
        if (s7.content.filter Block.isToolUse).isEmpty then ⟨false, s7, messages, fullLog⟩
        else ⟨true, s7, messages, fullLog⟩
      else ⟨true, r.1, messages, fullLog⟩

/-- Result of the task loop: final state plus every backend request
composed along the way, in order. -/
structure TaskOut where
  state : TurnState
  requests : List (List Msg)
deriving Repr

/-- `Task._task_loop` (lines 238-256), one scripted turn per iteration;
an exhausted script list stops the loop (no further backend turns exist to
model).  On `did_end` with a pending non-empty handoff the loop clears the
handoff and the abort flag and continues with the handoff text as the next
user content; otherwise `did_end` stops the loop; a non-ending turn
continues with the fixed continuation prompt. -/
def taskLoop (exec : String → List (String × String) → String) :
    List TurnScript → List String → TurnState → TaskOut
  | [], _, s => ⟨s, []⟩
  | sc :: rest, uc, s =>
    if s.abort then ⟨s, []⟩
    else
      let r := makeRequest exec sc uc s
      if r.didEnd then
        match r.state.nextTask with
        | some nt =>
          if nt = "" then ⟨r.state, [r.messages]⟩
          else
            let out := taskLoop exec rest [nt] { r.state with nextTask := none, abort := false }
            ⟨out.state, r.messages :: out.requests⟩
        | none => ⟨r.state, [r.messages]⟩
      else
        let out := taskLoop exec rest [continuationPrompt] r.state
        ⟨out.state, r.messages :: out.requests⟩

/-- `Task.start_task` (lines 234-236): seed the history with the initial
user entry and run the task loop with the initial task as first user
content. -/
def startTask (exec : String → List (String × String) → String)
    (scripts : List TurnScript) (initial : String) : TaskOut :=
  taskLoop exec scripts [initial] { initialTask with history := [⟨"user", initial⟩] }

/-- A concrete pure tool executor used by the scenario evaluations. -/
def exec0 : String → List (String × String) → String := fun _ _ => "ok"

/-- The filesystem/process primitives `ToolExecutor`'s bodies call
(lines 158-199), abstracted as explicit outcomes: `.error` embeds a raised
exception (its message), `.ok` a normal return.  `listDir` returns `none`
when the directory does not exist and otherwise the children as
`(name, is_directory)` pairs. -/
structure ToolEnv where
  readFile : String → Except String String
  writeFile : String → String → Except String Unit
  runCommand : String → Except String (String × String × Int)
  listDir : String → Except String (Option (List (String × Bool)))

/-- `ToolExecutor._read_file` (lines 158-162). -/
def readFileBody (env : ToolEnv) (path : String) : Except String String := do
  let content ← env.readFile path
  pure ("File contents of " ++ path ++ ":\n```\n" ++ content ++ "\n```")

/-- `ToolExecutor._write_file` (lines 164-169); `len(content)` counts
characters. -/
def writeFileBody (env : ToolEnv) (path content : String) : Except String String := do
  _ ← env.writeFile path content
  pure ("Wrote " ++ toString content.length ++ " characters to " ++ path)

/-- `ToolExecutor._execute_command` (lines 171-186): captured stdout and
stderr are included only when non-empty, the exit code always. -/
def executeCommandBody (env : ToolEnv) (command : String) : Except String String := do
  let (stdout, stderr, code) ← env.runCommand command
  let r1 := if stdout ≠ "" then ["STDOUT:\n" ++ stdout] else []
  let r2 := if stderr ≠ "" then ["STDERR:\n" ++ stderr] else []
  pure (String.intercalate "\n" (r1 ++ r2 ++ ["Exit code: " ++ toString code]))

/-- Insertion sort by name, embedding `sorted(dir_path.iterdir())`. -/
def insertByName (e : String × Bool) : List (String × Bool) → List (String × Bool)
  | [] => [e]
  | x :: xs => if e.1 ≤ x.1 then e :: x :: xs else x :: insertByName e xs

/-- Sort directory entries by name. -/
def sortByName : List (String × Bool) → List (String × Bool)
  | [] => []
  | x :: xs => insertByName x (sortByName xs)

/-- `ToolExecutor._list_files` (lines 188-199): a missing directory yields a
normal "does not exist" result, children are listed sorted with a
directory/file marker. -/
def listFilesBody (env : ToolEnv) (path : String) : Except String String := do
  match ← env.listDir path with
  | none => pure ("Directory " ++ path ++ " does not exist")
  | some entries =>
    let lines := (sortByName entries).map
      (fun e => if e.2 then "📁 " ++ e.1 ++ "/" else "📄 " ++ e.1)
    pure ("Contents of " ++ path ++ ":\n" ++ String.intercalate "\n" lines)

/-- The tool names the `if`/`elif` chain of `execute_tool` recognizes. -/
def knownToolNames : List String :=
  ["read_file", "write_to_file", "execute_command", "list_files", "attempt_completion"]

/-- The body of the `try` block of `execute_tool` (lines 143-154): dispatch
on the tool name, the unknown-name fallback included. -/
def toolBody (env : ToolEnv) (t : Block) : Except String String :=
  if Block.name t = "read_file" then
    readFileBody env (dictGet (Block.params t) "path" "")
  else if Block.name t = "write_to_file" then
    writeFileBody env (dictGet (Block.params t) "path" "") (dictGet (Block.params t) "content" "")
  else if Block.name t = "execute_command" then
    executeCommandBody env (dictGet (Block.params t) "command" "")
  else if Block.name t = "list_files" then
    listFilesBody env (dictGet (Block.params t) "path" ".")
  else if Block.name t = "attempt_completion" then
    pure ("Task completed: " ++ dictGet (Block.params t) "result" "Done")
  else pure ("Unknown tool: " ++ Block.name t)

/-- `Except.isOk` spelled out, to keep the statement independent of library
helpers. -/
def exceptOk {ε α : Type} : Except ε α → Bool
  | .ok _ => true
  | .error _ => false

/-- `ToolExecutor.execute_tool` (lines 141-156): the `try`/`except` wrapper
around the dispatch, rendering any raised exception as an error string. -/
def ToolExecutor.execute_tool (env : ToolEnv) (t : Block) : String :=
  match toolBody env t with
  | .ok r => r
  | .error e => "Error: " ++ e

/-- The finalized (non-partial) segments of a parse result, as the claims
phrase it. -/
def finalizedSegs (l : List Block) : List Block :=
  l.filter (fun b => !Block.pflag b)

section ParserLemmas

/-- Every block a single tool match contributes carries `pflag = false`. -/
theorem pflag_false_matchBlocks (m : List Char × String × List Char) (b : Block)
    (hb : b ∈ matchBlocks m) : Block.pflag b = false := by
  obtain ⟨before, n, inner⟩ := m
  simp only [matchBlocks, List.mem_append] at hb
  rcases hb with h | h
  · by_cases ht : trimChars before = []
    · simp [ht] at h
    · simp [ht] at h
      subst h
      rfl
  · simp at h
    subst h
    rfl

/-- Every block contributed by the match list carries `pflag = false`. -/
theorem pflag_false_blocksOfMatches :
    ∀ (ms : List (List Char × String × List Char)) (b : Block),
      b ∈ blocksOfMatches ms → Block.pflag b = false := by
  intro ms
  induction ms with
  | nil => intro b hb; simp [blocksOfMatches] at hb
  | cons m ms ih =>
    intro b hb
    simp only [blocksOfMatches, List.mem_append] at hb
    rcases hb with h | h
    · exact pflag_false_matchBlocks m b h
    · exact ih b h

/-- The trailing text block, when present, carries `pflag = false`. -/
theorem pflag_false_trailBlocks (rest : List Char) (b : Block)
    (hb : b ∈ trailBlocks rest) : Block.pflag b = false := by
  unfold trailBlocks at hb
  split at hb
  · simp at hb
  · simp at hb
    subst hb
    rfl

/-- No code path of the parser sets a block's `partial` field. -/
theorem pflag_false_parseChars (cs : List Char) (b : Block)
    (hb : b ∈ parseChars cs) : Block.pflag b = false := by
  unfold parseChars at hb
  split at hb
  · simp at hb
    subst hb
    rfl
  · simp only [List.mem_append] at hb
    rcases hb with h | h
    · exact pflag_false_blocksOfMatches _ b h
    · exact pflag_false_trailBlocks _ b h

/-- On a parse result the non-partial filter is the identity. -/
theorem finalizedSegs_parseChars (cs : List Char) :
    finalizedSegs (parseChars cs) = parseChars cs := by
  refine List.filter_eq_self.mpr ?_
  intro b hb
  simp [pflag_false_parseChars cs b hb]

/-- Core of the amended monotonic-prefix property: when two buffers have
the same complete tool matches, the parse of the first minus its last
segment is a prefix of the parse of the second. -/
theorem parseChars_dropLast_stable (cs1 cs2 : List Char)
    (hm : matchesOfChars cs1 = matchesOfChars cs2) :
    (parseChars cs1).dropLast <+: parseChars cs2 := by
  have hsingle : ∀ (r : List Char), trailBlocks r = [] ∨ ∃ x, trailBlocks r = [x] := by
    intro r
    unfold trailBlocks
    split
    · exact Or.inl rfl
    · exact Or.inr ⟨_, rfl⟩
  unfold parseChars
  by_cases hA : blocksOfMatches (matchesOfChars cs1) ++ trailBlocks (restOfChars cs1) = []
      ∧ trimChars cs1 ≠ []
  · rw [if_pos hA]
    split
    · simp
    · simp
  · rw [if_neg hA]
    by_cases hB : blocksOfMatches (matchesOfChars cs2) ++ trailBlocks (restOfChars cs2) = []
        ∧ trimChars cs2 ≠ []
    · rw [if_pos hB]
      have hbm2 : blocksOfMatches (matchesOfChars cs2) = [] := (List.append_eq_nil.mp hB.1).1
      have hbm1 : blocksOfMatches (matchesOfChars cs1) = [] := by rw [hm]; exact hbm2
      rcases hsingle (restOfChars cs1) with h1 | ⟨x, h1⟩
      · rw [hbm1, h1]
        simp
      · rw [hbm1, h1]
        simp
    · rw [if_neg hB, hm]
      rcases hsingle (restOfChars cs1) with h1 | ⟨x, h1⟩
      · rw [h1, List.append_nil]
        exact (List.dropLast_prefix _).trans ⟨trailBlocks (restOfChars cs2), rfl⟩
      · rw [h1]
        have : (blocksOfMatches (matchesOfChars cs2) ++ [x]).dropLast =
            blocksOfMatches (matchesOfChars cs2) := by simp
        rw [this]
        exact ⟨trailBlocks (restOfChars cs2), rfl⟩

end ParserLemmas

/-- C9: the buffer `"Hello <read_file><path>a.txt</path></read_file> world"`
parses to exactly the three segments `Text "Hello"`,
`ToolInvocation read_file {path: "a.txt"}`, `Text "world"`, the text
segments and the parameter value trimmed of surrounding whitespace. -/
theorem scenario_a_parse :
    MessageParser.parse_assistant_message "Hello <read_file><path>a.txt</path></read_file> world" =
      [Block.text "Hello" false,
       Block.toolUse "read_file" [("path", "a.txt")] false,
       Block.text "world" false] := by decide

/-- C4 counterexample: parsing the unterminated buffer
`"<write_to_file><path>x</path><content>hi</content>"` yields a single Text
segment whose `partial` field is `false`, not `true` as the claim states —
the parser never marks a segment partial. -/
theorem scenario_b_cex :
    (MessageParser.parse_assistant_message
        "<write_to_file><path>x</path><content>hi</content>").map Block.pflag = [false] ∧
    (MessageParser.parse_assistant_message
        "<write_to_file><path>x</path><content>hi</content>").map Block.pflag ≠ [true] := by
  decide

/-- C4 amended: parsing the unterminated buffer yields exactly one segment,
a Text segment with `partial = false` whose content is the whole trimmed
buffer; no tool-invocation segment is emitted for the unterminated tool
span. -/
theorem scenario_b_amended :
    MessageParser.parse_assistant_message "<write_to_file><path>x</path><content>hi</content>" =
      [Block.text "<write_to_file><path>x</path><content>hi</content>" false] := by decide

/-- C10: every segment `parse_assistant_message` returns has
`partial = false` — no code path of the parser sets the field — and the
post-stream finalization (`block.partial = False`) also only clears it. -/
theorem parse_partial_always_false (message : String) :
    (∀ b ∈ MessageParser.parse_assistant_message message, Block.pflag b = false) ∧
    (∀ c : Block, Block.pflag (Block.clearP c) = false) := by
  constructor
  · intro b hb
    exact pflag_false_parseChars message.data b hb
  · intro c
    cases c <;> rfl

/-- C10 witness: the single segment of parsing `"hi"` has
`partial = false`. -/
theorem parse_partial_always_false_witness :
    Block.pflag (Block.text "hi" false) = false :=
  (parse_partial_always_false "hi").1 (Block.text "hi" false) (by decide)

/-- C5 counterexample: `"a"` is a strict prefix of `"ab"` and `"ab"`
introduces no new complete tool tags, yet the finalized (non-partial)
segments of `parse "a"` — which is all of them, since no segment is ever
partial — are not a prefix of those of `parse "ab"`: the trailing text
segment changed from `"a"` to `"ab"`. -/
theorem prefix_stability_cex :
    "a".data <+: "ab".data ∧ "a" ≠ "ab" ∧
    matchesOfChars "a".data = matchesOfChars "ab".data ∧
    ¬ (finalizedSegs (MessageParser.parse_assistant_message "a") <+:
        finalizedSegs (MessageParser.parse_assistant_message "ab")) := by
  decide

/-- C5 amended: for buffers `b1` a strict prefix of `b2` where `b2`
introduces no new complete tool tags (the tool matches are unchanged), the
finalized segments of `parse b1` with the last segment removed are an exact
prefix of the finalized segments of `parse b2` — only the trailing,
still-growing segment may change. -/
theorem prefix_stability_amended (b1 b2 : String)
    (_hpre : b1.data <+: b2.data) (_hne : b1 ≠ b2)
    (hm : matchesOfChars b1.data = matchesOfChars b2.data) :
    (finalizedSegs (MessageParser.parse_assistant_message b1)).dropLast <+:
      finalizedSegs (MessageParser.parse_assistant_message b2) := by
  unfold MessageParser.parse_assistant_message
  rw [finalizedSegs_parseChars, finalizedSegs_parseChars]
  exact parseChars_dropLast_stable _ _ hm

/-- C5 witness: the amended property at the counterexample's buffers. -/
theorem prefix_stability_amended_witness :
    (finalizedSegs (MessageParser.parse_assistant_message "a")).dropLast <+:
      finalizedSegs (MessageParser.parse_assistant_message "ab") :=
  prefix_stability_amended "a" "ab" (by decide) (by decide) (by decide)

/-- C1: evaluation of `_make_request` at the failing inputs.  A turn whose
finalized segments contain one tool-invocation segment returns `True`
("turn ends the task"), and a turn with zero tool-invocation segments
returns `False` ("task continues") — the exact inverse of the claimed
completion rule: lines 321-325 return `False` (continue) precisely when
`tool_blocks` is empty. -/
theorem continuation_rule_code_eval :
    (makeRequest exec0 ⟨["<read_file><path>a.txt</path></read_file>"], ""⟩ ["t"]
        { initialTask with history := [⟨"user", "t"⟩] }).didEnd = true ∧
    (makeRequest exec0 ⟨["<read_file><path>a.txt</path></read_file>"], ""⟩ ["t"]
        { initialTask with history := [⟨"user", "t"⟩] }).state.content.filter
        Block.isToolUse =
      [Block.toolUse "read_file" [("path", "a.txt")] false] ∧
    (makeRequest exec0 ⟨["I cannot use tools."], ""⟩ ["t"]
        { initialTask with history := [⟨"user", "t"⟩] }).didEnd = false ∧
    (makeRequest exec0 ⟨["I cannot use tools."], ""⟩ ["t"]
        { initialTask with history := [⟨"user", "t"⟩] }).state.content.filter
        Block.isToolUse = [] := by
  decide

/-- C2: evaluation of the task loop at the failing input.  A turn whose
stream is one `read_file` invocation appends its result entry to Pending
Results (`user_message_content`), but the turn returns `True` and the task
ends: the entry is discarded, exactly one backend request is ever composed,
and that request's user content is the initial task text — no request is
ever built from Pending Results (lines 269-271 compose requests solely from
`conversation_history` and the `user_content` argument). -/
theorem pending_results_dropped_eval :
    (startTask exec0 [⟨["<read_file><path>a</path></read_file>"], ""⟩] "t").state.userMsgs =
      ["Tool read_file result:\nok"] ∧
    (startTask exec0 [⟨["<read_file><path>a</path></read_file>"], ""⟩] "t").requests =
      [[⟨"user", "t"⟩, ⟨"user", "t"⟩]] := by
  decide

/-- C3 counterexample: after `attempt_completion` with operator follow-up
`"next please"`, the next turn's request is composed from the retained
conversation history (still holding the original task's seed entry) plus
the follow-up — not from a fresh history whose sole seed is the
follow-up. -/
theorem handoff_cex :
    (startTask exec0
        [⟨["<attempt_completion><result>done</result></attempt_completion>"], "next please"⟩,
         ⟨["ok"], ""⟩] "first task").requests.getD 1 [] =
      [⟨"user", "first task"⟩, ⟨"user", "next please"⟩] ∧
    (startTask exec0
        [⟨["<attempt_completion><result>done</result></attempt_completion>"], "next please"⟩,
         ⟨["ok"], ""⟩] "first task").requests.getD 1 [] ≠
      [⟨"user", "next please"⟩] := by
  decide

section PresentationLemmas

/-- Every branch of the completion prompt handler sets `abort`. -/
theorem applyOperator_abort (raw : String) (s : TurnState) :
    (applyOperator raw s).abort = true := by
  simp only [applyOperator]
  split
  · rfl
  · split <;> rfl

/-- Dispatching a tool does not move the cursor. -/
theorem execState_idx (exec : String → List (String × String) → String)
    (s : TurnState) (b : Block) : (execState exec s b).idx = s.idx := by
  unfold execState
  split <;> rfl

/-- Dispatching a tool does not change the segment sequence. -/
theorem execState_content (exec : String → List (String × String) → String)
    (s : TurnState) (b : Block) : (execState exec s b).content = s.content := by
  unfold execState
  split <;> rfl

/-- Dispatching a tool does not change the abort flag. -/
theorem execState_abort (exec : String → List (String × String) → String)
    (s : TurnState) (b : Block) : (execState exec s b).abort = s.abort := by
  unfold execState
  split <;> rfl

/-- Advancing moves the cursor forward by exactly one. -/
theorem advState_idx (s : TurnState) : (advState s).idx = s.idx + 1 := rfl

/-- Advancing does not change the segment sequence. -/
theorem advState_content (s : TurnState) : (advState s).content = s.content := rfl

/-- Advancing does not change the abort flag. -/
theorem advState_abort (s : TurnState) : (advState s).abort = s.abort := rfl

/-- Visit-log shape of one `_present_content` call: the visited indices are
the contiguous run starting at the entry cursor, and afterwards the cursor
sits at its end unless the completion side-channel fired (which sets
`abort` and leaves the cursor on the completion segment). -/
theorem presentContent_log (exec : String → List (String × String) → String) (op : String) :
    ∀ (f : Nat) (s : TurnState), ∃ m,
      (presentContent exec op f s).2 = List.range' s.idx m ∧
      ((presentContent exec op f s).1.idx = s.idx + m ∨
        (presentContent exec op f s).1.abort = true) := by
  intro f
  induction f with
  | zero =>
    intro s
    exact ⟨0, rfl, Or.inl rfl⟩
  | succ f ih =>
    intro s
    simp only [presentContent]
    split
    · exact ⟨0, rfl, Or.inl (by split <;> rfl)⟩
    · split
      · refine ⟨1, rfl, Or.inr ?_⟩
        exact applyOperator_abort op s
      · split
        · refine ⟨0, rfl, Or.inl ?_⟩
          rw [execState_idx]
          rfl
        · split
          · obtain ⟨m, hlog, hidx⟩ := ih (advState (execState exec s (curBlock s)))
            refine ⟨m + 1, ?_, ?_⟩
            · rw [List.range'_succ, hlog, advState_idx, execState_idx]
            · rcases hidx with h | h
              · left
                rw [h, advState_idx, execState_idx]
                omega
              · right
                exact h
          · refine ⟨1, rfl, Or.inl ?_⟩
            rw [advState_idx, execState_idx]

/-- No call of `_present_content` visits an index past a finalized
completion segment sitting at or ahead of the cursor. -/
theorem presentLog_le (exec : String → List (String × String) → String) (op : String) :
    ∀ (f : Nat) (s : TurnState) (j : Nat), s.idx ≤ j → j < s.content.length →
      isFinalCompletionB (s.content.getD j (Block.text "" false)) = true →
      ∀ i ∈ (presentContent exec op f s).2, i ≤ j := by
  intro f
  induction f with
  | zero =>
    intro s j _ _ _ i hi
    simp [presentContent] at hi
  | succ f ih =>
    intro s j hle hlt hcomp i hi
    simp only [presentContent] at hi
    split at hi
    · simp at hi
    · split at hi
      · simp at hi
        subst hi
        exact hle
      · rename_i hnotcomp
        split at hi
        · simp at hi
        · have hne : s.idx ≠ j := by
            intro h
            apply hnotcomp
            unfold curBlock
            rw [h]
            exact hcomp
          have hlt2 : s.idx < j := lt_of_le_of_ne hle hne
          split at hi
          · rcases List.mem_cons.mp hi with h | h
            · subst h
              exact hle
            · refine ih (advState (execState exec s (curBlock s))) j ?_ ?_ ?_ i h
              · rw [advState_idx, execState_idx]
                omega
              · rw [advState_content, execState_content]
                exact hlt
              · rw [advState_content, execState_content]
                exact hcomp
          · simp at hi
            subst hi
            exact hle

end PresentationLemmas

/-- C6: once a finalized completion-tool segment sits at index `j`, at or
ahead of the cursor, presentation visits no index beyond `j`: the visit log
filtered to indices past `j` is empty.  (Reaching `j` itself takes the
side-channel of lines 338-354, which sets `abort` without advancing, so no
later segment of the sequence is presented or executed.) -/
theorem completion_short_circuit (exec : String → List (String × String) → String)
    (op : String) (f : Nat) (s : TurnState) (j : Nat)
    (h1 : s.idx ≤ j) (h2 : j < s.content.length)
    (h3 : isFinalCompletionB (s.content.getD j (Block.text "" false)) = true) :
    (presentContent exec op f s).2.filter (fun i => decide (j < i)) = [] := by
  refine List.filter_eq_nil_iff.mpr ?_
  intro a ha
  have hb := presentLog_le exec op f s j h1 h2 h3 a ha
  simp only [decide_eq_true_eq]
  omega

/-- C6 witness: a sequence whose first segment is the completion tool. -/
theorem completion_short_circuit_witness :
    (presentContent exec0 "" 2
        { initialTask with
          content := [Block.toolUse "attempt_completion" [] false,
                      Block.toolUse "read_file" [] false] }).2.filter
      (fun i => decide (0 < i)) = [] :=
  completion_short_circuit exec0 "" 2
    { initialTask with
      content := [Block.toolUse "attempt_completion" [] false,
                  Block.toolUse "read_file" [] false] }
    0 (by decide) (by decide) (by decide)

/-- Contiguous ranges concatenate. -/
theorem range1_append (s m n : Nat) :
    List.range' s m ++ List.range' (s + m) n = List.range' s (m + n) := by
  have h := List.range'_append s m n 1
  rw [Nat.add_comm m n]
  simp only [Nat.one_mul] at h
  exact h

/-- Visit-log shape of the whole streaming loop: across every re-parse and
re-presentation the visited indices form one contiguous run from the entry
cursor, and the cursor ends at its end unless the turn aborted. -/
theorem streamFold_log (exec : String → List (String × String) → String) (op : String) :
    ∀ (ds : List String) (acc : String) (s : TurnState), ∃ m,
      (streamFold exec op ds acc s).log = List.range' s.idx m ∧
      ((streamFold exec op ds acc s).state.idx = s.idx + m ∨
        (streamFold exec op ds acc s).state.abort = true) := by
  intro ds
  induction ds with
  | nil =>
    intro acc s
    exact ⟨0, rfl, Or.inl rfl⟩
  | cons d ds ih =>
    intro acc s
    by_cases hd : d = ""
    · simp only [streamFold]
      rw [if_pos hd]
      exact ih acc s
    · simp only [streamFold]
      rw [if_neg hd]
      obtain ⟨m1, h1, hidx1⟩ := presentContent_log exec op
        ((MessageParser.parse_assistant_message (acc ++ d)).length + 1)
        { s with content := MessageParser.parse_assistant_message (acc ++ d) }
      by_cases habort :
          (presentContent exec op
            ((MessageParser.parse_assistant_message (acc ++ d)).length + 1)
            { s with content := MessageParser.parse_assistant_message (acc ++ d) }).1.abort = true
      · rw [if_pos habort]
        exact ⟨m1, h1, Or.inr habort⟩
      · rw [if_neg habort]
        have hidx1' :
            (presentContent exec op
              ((MessageParser.parse_assistant_message (acc ++ d)).length + 1)
              { s with content := MessageParser.parse_assistant_message (acc ++ d) }).1.idx =
              s.idx + m1 := by
          rcases hidx1 with h | h
          · exact h
          · exact absurd h habort
        obtain ⟨m2, h2, hidx2⟩ := ih (acc ++ d)
          (presentContent exec op
            ((MessageParser.parse_assistant_message (acc ++ d)).length + 1)
            { s with content := MessageParser.parse_assistant_message (acc ++ d) }).1
        refine ⟨m1 + m2, ?_, ?_⟩
        · show (presentContent exec op
              ((MessageParser.parse_assistant_message (acc ++ d)).length + 1)
              { s with content := MessageParser.parse_assistant_message (acc ++ d) }).2 ++
              _ = _
          rw [h1, h2, hidx1', ← range1_append]
        · rcases hidx2 with h | h
          · left
            rw [h, hidx1']
            omega
          · right
            exact h

/-- C7: over a whole turn of `_make_request` — the buffer re-parsed and
presentation re-run after every streamed delta, then once more after
finalization — the visited segment indices are exactly `0, 1, 2, …` in
order: strictly increasing from 0, each index visited at most once. -/
theorem presentation_order (exec : String → List (String × String) → String)
    (script : TurnScript) (uc : List String) (s0 : TurnState) :
    ∃ k, (makeRequest exec script uc s0).log = List.range k := by
  simp only [makeRequest]
  split
  · exact ⟨0, rfl⟩
  · obtain ⟨m1, h1, hidx1⟩ :=
      streamFold_log exec script.operatorInput script.deltas "" (resetState s0)
    by_cases habort :
        (stopStream (streamFold exec script.operatorInput script.deltas ""
          (resetState s0)).state).abort = true
    · rw [if_pos habort]
      refine ⟨m1, ?_⟩
      rw [List.range_eq_range']
      exact h1
    · rw [if_neg habort]
      have hidx1' :
          (streamFold exec script.operatorInput script.deltas ""
            (resetState s0)).state.idx = m1 := by
        rcases hidx1 with h | h
        · simpa [resetState] using h
        · exact absurd h habort
      obtain ⟨m2, h2, _⟩ := presentContent_log exec script.operatorInput
        ((clearedContent (stopStream (streamFold exec script.operatorInput script.deltas ""
          (resetState s0)).state)).content.length + 1)
        (clearedContent (stopStream (streamFold exec script.operatorInput script.deltas ""
          (resetState s0)).state))
      have h2' :
          (presentContent exec script.operatorInput
            ((clearedContent (stopStream (streamFold exec script.operatorInput script.deltas ""
              (resetState s0)).state)).content.length + 1)
            (clearedContent (stopStream (streamFold exec script.operatorInput script.deltas ""
              (resetState s0)).state))).2 = List.range' m1 m2 := by
        rw [h2]
        show List.range'
          ((streamFold exec script.operatorInput script.deltas ""
            (resetState s0)).state.idx) m2 = _
        rw [hidx1']
      have hfull :
          (streamFold exec script.operatorInput script.deltas "" (resetState s0)).log ++
          (presentContent exec script.operatorInput
            ((clearedContent (stopStream (streamFold exec script.operatorInput script.deltas ""
              (resetState s0)).state)).content.length + 1)
            (clearedContent (stopStream (streamFold exec script.operatorInput script.deltas ""
              (resetState s0)).state))).2 = List.range (m1 + m2) := by
        rw [h1, h2', List.range_eq_range']
        show List.range' (resetState s0).idx m1 ++ _ = _
        have := range1_append 0 m1 m2
        simpa [resetState] using this
      split
      · exact ⟨m1 + m2, hfull⟩
      · split
        · split
          · exact ⟨m1 + m2, hfull⟩
          · exact ⟨m1 + m2, hfull⟩
        · exact ⟨m1 + m2, hfull⟩

/-- C3 amended: when the operator supplies a non-empty, non-quit follow-up
at an `attempt_completion` segment, the Task Loop continues with the
retained conversation history — the follow-up becomes the next request's
final user message appended to that history — and the handoff string is
consumed exactly once (cleared after use). -/
theorem handoff_amended :
    (startTask exec0
        [⟨["<attempt_completion><result>done</result></attempt_completion>"], "next please"⟩,
         ⟨["ok"], ""⟩] "first task").requests =
      [[⟨"user", "first task"⟩, ⟨"user", "first task"⟩],
       [⟨"user", "first task"⟩, ⟨"user", "next please"⟩]] ∧
    (startTask exec0
        [⟨["<attempt_completion><result>done</result></attempt_completion>"], "next please"⟩,
         ⟨["ok"], ""⟩] "first task").state.nextTask = none := by
  decide

/-- A tool environment whose `readFile` raises, for the C8 witness. -/
def envFail : ToolEnv :=
  { readFile := fun _ => .error "boom",
    writeFile := fun _ _ => .ok (),
    runCommand := fun _ => .ok ("", "", 0),
    listDir := fun _ => .ok none }

/-- C8: `execute_tool` always returns a plain string (its Lean type — the
`try`/`except` of lines 142-156 leaves no uncaught path): a failure raised
by a tool body is rendered as a result string prefixed with `"Error: "`,
and an unrecognized tool name yields the explanatory unknown-tool string
rather than failing the turn. -/
theorem execute_tool_total (env : ToolEnv) (t : Block) :
    (exceptOk (toolBody env t) = false →
      ∃ e, ToolExecutor.execute_tool env t = "Error: " ++ e) ∧
    (Block.name t ∉ knownToolNames →
      ToolExecutor.execute_tool env t = "Unknown tool: " ++ Block.name t) := by
  constructor
  · intro h
    cases htb : toolBody env t with
    | ok r =>
      rw [htb] at h
      simp [exceptOk] at h
    | error e =>
      refine ⟨e, ?_⟩
      simp [ToolExecutor.execute_tool, htb]
  · intro h
    simp only [knownToolNames, List.mem_cons, List.not_mem_nil, or_false] at h
    push_neg at h
    obtain ⟨h1, h2, h3, h4, h5⟩ := h
    simp [ToolExecutor.execute_tool, toolBody, h1, h2, h3, h4, h5]
    rfl

/-- C8 witness: a failing `read_file` is rendered as an error string, and
an unrecognized name yields the unknown-tool string. -/
theorem execute_tool_total_witness :
    (∃ e, ToolExecutor.execute_tool envFail
        (Block.toolUse "read_file" [("path", "x")] false) = "Error: " ++ e) ∧
    ToolExecutor.execute_tool envFail (Block.toolUse "frobnicate" [] false) =
      "Unknown tool: " ++ "frobnicate" := by
  constructor
  · exact (execute_tool_total envFail
      (Block.toolUse "read_file" [("path", "x")] false)).1 (by decide)
  · exact (execute_tool_total envFail (Block.toolUse "frobnicate" [] false)).2 (by decide)
